import Mathlib

/-!
Verification of the sliding-window volumetric inference engine (`predict.py`,
`test_single_case`) and of the mean-teacher training loop
(`train_semi_3Dmt_dist.py`, `main` and `sigmoid_rampup`) of the repository.

The code is shallowly embedded: 3D arrays become functions from index triples,
machine floats become exact rationals (or reals where `exp`/`rpow` appear), and
the IEEE NaN produced by a `0/0` float division is modelled by `Option`'s
`none`.  The neural network itself is an external collaborator and is modelled
as an opaque function argument.
-/

namespace SelfResearch

/-! ### Patch scheduler and padding (predict.py, test_single_case) -/

/-- Padding added on one axis, from `predict.py` lines 76-90:
`if w < patch_size[0]: w_pad = patch_size[0] - w ... else: w_pad = 0`.
Natural-number subtraction truncates to 0 when `p ≤ e`, which is exactly the
source's conditional. -/
def padAmt (e p : ℕ) : ℕ := p - e

/-- Extent of an axis after padding (`ww, hh, dd = image.shape` at line 97). -/
def paddedExtent (e p : ℕ) : ℕ := e + padAmt e p

/-- Left-side pad on one axis (line 91: `wl_pad = w_pad // 2`). -/
def padLeft (e p : ℕ) : ℕ := padAmt e p / 2

/-- Whether any padding happens (`add_pad` flag, lines 75-90). -/
def addPad (w h d pw ph pd : ℕ) : Bool :=
  decide (w < pw) || decide (h < ph) || decide (d < pd)

/-- Number of patch offsets on one axis of padded extent `pe`, patch extent
`p`, stride `s` (lines 99-101): `math.ceil((pe - p) / s) + 1`, written with the
natural-number ceiling division `(m + s - 1) / s`. -/
def stepCount (pe p s : ℕ) : ℕ := (pe - p + s - 1) / s + 1

/-- Clamped offset on one axis for step index `k` (lines 107, 109, 111):
`min(stride * k, extent - patch)`. -/
def axOff (s m k : ℕ) : ℕ := min (s * k) m

/-- The full ordered list of patch offset triples produced by the triple loop
at lines 106-111: axis 0 is stepped with `stride_z` (`sz`), axes 1 and 2 with
`stride_xy` (`sxy`). -/
def patchOffsets (sxy sz pw ph pd ww hh dd : ℕ) : List (ℕ × ℕ × ℕ) :=
  (List.range (stepCount ww pw sz)).flatMap (fun x =>
    (List.range (stepCount hh ph sxy)).flatMap (fun y =>
      (List.range (stepCount dd pd sxy)).map (fun z =>
        (axOff sz (ww - pw) x, axOff sxy (hh - ph) y, axOff sxy (dd - pd) z))))

/-- Whether voxel `v` lies inside the patch anchored at offset `o`
(the slice `[xs:xs+patch_size[0], ys:..., zs:...]` of lines 112, 133-136). -/
def covers (pw ph pd : ℕ) (o v : ℕ × ℕ × ℕ) : Bool :=
  (decide (o.1 ≤ v.1) && decide (v.1 < o.1 + pw)) &&
  (decide (o.2.1 ≤ v.2.1) && decide (v.2.1 < o.2.1 + ph)) &&
  (decide (o.2.2 ≤ v.2.2) && decide (v.2.2 < o.2.2 + pd))

/-- Visit count of a voxel: `cnt` of lines 104 and 135-136, accumulated `+1`
for every patch whose slice contains the voxel. -/
def visitCnt (sxy sz pw ph pd ww hh dd : ℕ) (v : ℕ × ℕ × ℕ) : ℕ :=
  (patchOffsets sxy sz pw ph pd ww hh dd).countP (fun o => covers pw ph pd o v)

/-! ### Score accumulation and normalization (predict.py lines 103-144) -/

/-- A padded 3D image. -/
abbrev Img : Type := ℕ × ℕ × ℕ → ℚ

/-- The model, composed with the softmax over the class axis (lines 117-132):
it maps a patch content to a per-class, per-local-voxel score.  The network
and the softmax are external collaborators, hence opaque here. -/
abbrev Net : Type := Img → ℕ → (ℕ × ℕ × ℕ) → ℚ

/-- The patch content extracted at offset `o` (line 112). -/
def patchAt (pimg : Img) (o : ℕ × ℕ × ℕ) : Img :=
  fun lc => pimg (o.1 + lc.1, o.2.1 + lc.2.1, o.2.2 + lc.2.2)

/-- Componentwise subtraction of index triples. -/
def vsub (v o : ℕ × ℕ × ℕ) : ℕ × ℕ × ℕ := (v.1 - o.1, v.2.1 - o.2.1, v.2.2 - o.2.2)

/-- Accumulated `score_map` for class `c` at voxel `v` (lines 103, 133-134): the sum over
all patches containing `v` of the model score at the corresponding local
voxel. -/
def scoreAcc (net : Net) (pimg : Img) (sxy sz pw ph pd ww hh dd c : ℕ)
  (v : ℕ × ℕ × ℕ) : ℚ :=
  ((patchOffsets sxy sz pw ph pd ww hh dd).map (fun o =>
    if covers pw ph pd o v then net (patchAt pimg o) c (vsub v o) else 0)).sum

/-- Normalization of one score entry (line 137: `score_map / cnt`).  When the
count is 0 the float code computes `0/0 = NaN`; the NaN is modelled by `none`.
No exception is raised: the function is total. -/
def normVoxel (s : ℚ) (c : ℕ) : Option ℚ :=
  if c = 0 then none else some (s / c)

/-- numpy-style strictly-greater test used by `np.argmax` (line 138): a NaN
(`none`) beats every number and never loses, so the first NaN index wins. -/
def npGT : Option ℚ → Option ℚ → Bool
  | none, none => false
  | none, some _ => true
  | some _, none => false
  | some a, some b => decide (b < a)

/-- Fold computing the index of the first maximal element. -/
def argmaxGo : List (Option ℚ) → ℕ → ℕ → Option ℚ → ℕ
  | [], _, bi, _ => bi
  | a :: rest, i, bi, bv =>
    if npGT a bv then argmaxGo rest (i + 1) i a else argmaxGo rest (i + 1) bi bv

/-- Embedding of `np.argmax` over a list of optional scores (line 138), first maximum wins,
NaN treated as maximal as numpy does. -/
def argmaxIdx : List (Option ℚ) → ℕ
  | [] => 0
  | a :: rest => argmaxGo rest 1 0 a

/-- The symmetric constant-zero padding of lines 91-96: voxel `v` of the
padded image reads the original image shifted by the left pads, and 0
outside the original block. -/
def paddedImage (img : Img) (w h d pw ph pd : ℕ) : Img := fun v =>
  if (decide (padLeft w pw ≤ v.1) && decide (v.1 < padLeft w pw + w)) &&
     (decide (padLeft h ph ≤ v.2.1) && decide (v.2.1 < padLeft h ph + h)) &&
     (decide (padLeft d pd ≤ v.2.2) && decide (v.2.2 < padLeft d pd + d)) then
    img (vsub v (padLeft w pw, padLeft h ph, padLeft d pd))
  else 0

/-- The `label_map` over the padded volume (line 138): per-voxel argmax over the
`num_classes` normalized scores. -/
def labelPadded (nc : ℕ) (net : Net) (pimg : Img) (sxy sz pw ph pd ww hh dd : ℕ)
  (v : ℕ × ℕ × ℕ) : ℕ :=
  argmaxIdx ((List.range nc).map (fun c =>
    normVoxel (scoreAcc net pimg sxy sz pw ph pd ww hh dd c v)
      (visitCnt sxy sz pw ph pd ww hh dd v)))

/-- Extent of one axis of the cropped output (line 140): the numpy slice
`[wl_pad : wl_pad + w]` of an array of length `paddedExtent` has length
`min paddedExtent (wl_pad + w) - wl_pad`. -/
def cropExt (e p : ℕ) : ℕ := min (paddedExtent e p) (padLeft e p + e) - padLeft e p

/-- Shape of the returned `label_map` (lines 139-141): cropped back when
padding was added, otherwise the (unpadded) shape of line 97. -/
def outputShape (w h d pw ph pd : ℕ) : ℕ × ℕ × ℕ :=
  if addPad w h d pw ph pd then (cropExt w pw, cropExt h ph, cropExt d pd)
  else (paddedExtent w pw, paddedExtent h ph, paddedExtent d pd)

/-- The returned `label_map` of `test_single_case` as a function of the voxel
of the output array: pad (lines 94-96), accumulate and normalize
(lines 103-138), crop (lines 139-140). -/
def outputLabel (nc : ℕ) (net : Net) (img : Img) (sxy sz pw ph pd w h d : ℕ)
  (v : ℕ × ℕ × ℕ) : ℕ :=
  labelPadded nc net (paddedImage img w h d pw ph pd) sxy sz pw ph pd
    (paddedExtent w pw) (paddedExtent h ph) (paddedExtent d pd)
    (if addPad w h d pw ph pd then
      (v.1 + padLeft w pw, v.2.1 + padLeft h ph, v.2.2 + padLeft d pd)
     else v)

/-! ### Helper lemmas for the tiling -/

lemma patch_le_paddedExtent (e p : ℕ) : p ≤ paddedExtent e p := by
  unfold paddedExtent padAmt; omega

/-- The clamp never lets an offset pass `pe - p`. -/
lemma axOff_le (s m k : ℕ) : axOff s m k ≤ m := min_le_right _ _

/-- The last step index lands exactly on `pe - p`: `s * ceil(m / s) ≥ m`. -/
lemma axOff_last (s m : ℕ) (hs : 0 < s) : axOff s m ((m + s - 1) / s) = m := by
  have hdm := Nat.div_add_mod (m + s - 1) s
  have hlt : (m + s - 1) % s < s := Nat.mod_lt _ hs
  unfold axOff; omega

/-- One-axis coverage: with a positive stride at most the patch extent, every
index below the padded extent lies in some emitted window. -/
lemma axis_cover (pe p s : ℕ) (hs : 0 < s) (hsp : s ≤ p) (hp : p ≤ pe)
  (v : ℕ) (hv : v < pe) :
  ∃ k < stepCount pe p s, axOff s (pe - p) k ≤ v ∧ v < axOff s (pe - p) k + p := by
  by_cases hvm : pe - p ≤ v
  · refine ⟨(pe - p + s - 1) / s, ?_, ?_⟩
    · unfold stepCount; omega
    · rw [axOff_last s (pe - p) hs]; omega
  · refine ⟨v / s, ?_, ?_⟩
    · have h1 : v / s ≤ (pe - p + s - 1) / s := Nat.div_le_div_right (by omega)
      unfold stepCount; omega
    · have hdm := Nat.div_add_mod v s
      have hlt : v % s < s := Nat.mod_lt _ hs
      have hle : s * (v / s) ≤ v := by omega
      have hax : axOff s (pe - p) (v / s) = s * (v / s) := by
        unfold axOff; omega
      rw [hax]; omega

/-- A rational ceiling pinned down by two multiplicative bounds. -/
lemma ceil_eq_of_bounds (m s n : ℕ) (hs : 0 < s) (h1 : s * n < m + s)
  (h2 : m ≤ s * n) : ⌈(m : ℚ) / s⌉ = (n : ℤ) := by
  have hs0 : (0 : ℚ) < s := by positivity
  have h1q : (s : ℚ) * n < (m : ℚ) + s := by exact_mod_cast h1
  have h2q : (m : ℚ) ≤ (s : ℚ) * n := by exact_mod_cast h2
  rw [Int.ceil_eq_iff]
  constructor
  · rw [lt_div_iff₀ hs0]
    push_cast
    nlinarith [h1q]
  · rw [div_le_iff₀ hs0]
    push_cast
    nlinarith [h2q]

/-- Natural-number ceiling division is the rational ceiling. -/
lemma ceilDiv_cast (m s : ℕ) (hs : 0 < s) :
  ⌈(m : ℚ) / s⌉ = (((m + s - 1) / s : ℕ) : ℤ) := by
  have hdm := Nat.div_add_mod (m + s - 1) s
  have hlt : (m + s - 1) % s < s := Nat.mod_lt _ hs
  exact ceil_eq_of_bounds m s _ hs (by omega) (by omega)

/-- The step count is the rational ceiling of the spec formula, plus one. -/
lemma stepCount_eq_ceil (pe p s : ℕ) (hs : 0 < s) (hp : p ≤ pe) :
  (stepCount pe p s : ℤ) = ⌈((pe : ℚ) - p) / s⌉ + 1 := by
  rw [← Nat.cast_sub hp, ceilDiv_cast (pe - p) s hs]
  unfold stepCount
  push_cast
  ring

/-- Characterization of membership in the emitted offset list. -/
lemma mem_patchOffsets (sxy sz pw ph pd ww hh dd : ℕ) (o : ℕ × ℕ × ℕ) :
  o ∈ patchOffsets sxy sz pw ph pd ww hh dd ↔
  ∃ x, x < stepCount ww pw sz ∧ ∃ y, y < stepCount hh ph sxy ∧
    ∃ z, z < stepCount dd pd sxy ∧
      o = (axOff sz (ww - pw) x, axOff sxy (hh - ph) y, axOff sxy (dd - pd) z) := by
  unfold patchOffsets
  simp only [List.mem_flatMap, List.mem_map, List.mem_range]
  constructor
  · rintro ⟨x, hx, y, hy, z, hz, rfl⟩
    exact ⟨x, hx, y, hy, z, hz, rfl⟩
  · rintro ⟨x, hx, y, hy, z, hz, rfl⟩
    exact ⟨x, hx, y, hy, z, hz, rfl⟩

/-- Length of the emitted offset list: the product of the per-axis counts. -/
lemma length_patchOffsets (sxy sz pw ph pd ww hh dd : ℕ) :
  (patchOffsets sxy sz pw ph pd ww hh dd).length =
    stepCount ww pw sz * (stepCount hh ph sxy * stepCount dd pd sxy) := by
  unfold patchOffsets
  simp [List.length_flatMap, Function.comp_def, List.map_const]

/-- Coverage of the tiling: with positive strides at most the patch extents,
every in-bounds voxel of the padded volume is visited at least once. -/
lemma visit_everywhere (sxy sz pw ph pd ww hh dd : ℕ)
  (hz0 : 0 < sz) (hzp : sz ≤ pw) (hx0 : 0 < sxy) (hxh : sxy ≤ ph)
  (hxd : sxy ≤ pd) (hw : pw ≤ ww) (hh2 : ph ≤ hh) (hd2 : pd ≤ dd)
  (v : ℕ × ℕ × ℕ) (h1 : v.1 < ww) (h2 : v.2.1 < hh) (h3 : v.2.2 < dd) :
  1 ≤ visitCnt sxy sz pw ph pd ww hh dd v := by
  obtain ⟨kx, hkx, hx1, hx2⟩ := axis_cover ww pw sz hz0 hzp hw v.1 h1
  obtain ⟨ky, hky, hy1, hy2⟩ := axis_cover hh ph sxy hx0 hxh hh2 v.2.1 h2
  obtain ⟨kz, hkz, hz1, hz2⟩ := axis_cover dd pd sxy hx0 hxd hd2 v.2.2 h3
  have hmem : (axOff sz (ww - pw) kx, axOff sxy (hh - ph) ky,
      axOff sxy (dd - pd) kz) ∈ patchOffsets sxy sz pw ph pd ww hh dd := by
    rw [mem_patchOffsets]
    exact ⟨kx, hkx, ky, hky, kz, hkz, rfl⟩
  have hcov : covers pw ph pd
      (axOff sz (ww - pw) kx, axOff sxy (hh - ph) ky, axOff sxy (dd - pd) kz)
      v = true := by
    unfold covers
    simp only [Bool.and_eq_true, decide_eq_true_eq]
    exact ⟨⟨⟨hx1, hx2⟩, hy1, hy2⟩, hz1, hz2⟩
  exact List.countP_pos_iff.mpr ⟨_, hmem, hcov⟩

/-- Claim C1, counterexample to the claim as stated.  The claim quantifies
over all strides, but with volume shape (3,1,1), patch shape (1,1,1),
stride_z = 2 and stride_xy = 1 the voxel (1,0,0) of the (un)padded volume is
inside the padded extents yet is visited by no patch: the union of the
emitted patches does not cover the padded volume. -/
theorem patch_tiling_gap :
  1 < paddedExtent 3 1 ∧ 0 < paddedExtent 1 1 ∧
  visitCnt 1 2 1 1 1 (paddedExtent 3 1) (paddedExtent 1 1) (paddedExtent 1 1)
    (1, 0, 0) = 0 := by decide

/-- Claim C1 (amended): for every volume shape and patch shape, and per-axis
strides that are positive and at most the patch extent on their axis, the
tiling of the padded volume emits per axis exactly
`ceil((padded_extent - patch_extent) / stride) + 1` offsets (the emitted list
has the product length), every offset is clamped to at most
`padded_extent - patch_extent`, the last step index on each axis lands exactly
on `padded_extent - patch_extent`, and every voxel of the padded volume is
visited at least once. -/
theorem patch_tiling_covers (w h d pw ph pd sxy sz : ℕ)
  (hz0 : 0 < sz) (hzp : sz ≤ pw) (hx0 : 0 < sxy) (hxh : sxy ≤ ph)
  (hxd : sxy ≤ pd) :
  ((patchOffsets sxy sz pw ph pd (paddedExtent w pw) (paddedExtent h ph)
      (paddedExtent d pd)).length =
    stepCount (paddedExtent w pw) pw sz *
      (stepCount (paddedExtent h ph) ph sxy *
        stepCount (paddedExtent d pd) pd sxy)) ∧
  (stepCount (paddedExtent w pw) pw sz : ℤ) =
    ⌈((paddedExtent w pw : ℚ) - pw) / sz⌉ + 1 ∧
  (stepCount (paddedExtent h ph) ph sxy : ℤ) =
    ⌈((paddedExtent h ph : ℚ) - ph) / sxy⌉ + 1 ∧
  (stepCount (paddedExtent d pd) pd sxy : ℤ) =
    ⌈((paddedExtent d pd : ℚ) - pd) / sxy⌉ + 1 ∧
  (∀ o ∈ patchOffsets sxy sz pw ph pd (paddedExtent w pw) (paddedExtent h ph)
      (paddedExtent d pd),
    o.1 ≤ paddedExtent w pw - pw ∧ o.2.1 ≤ paddedExtent h ph - ph ∧
      o.2.2 ≤ paddedExtent d pd - pd) ∧
  axOff sz (paddedExtent w pw - pw) (stepCount (paddedExtent w pw) pw sz - 1) =
    paddedExtent w pw - pw ∧
  axOff sxy (paddedExtent h ph - ph)
      (stepCount (paddedExtent h ph) ph sxy - 1) =
    paddedExtent h ph - ph ∧
  axOff sxy (paddedExtent d pd - pd)
      (stepCount (paddedExtent d pd) pd sxy - 1) =
    paddedExtent d pd - pd ∧
  ∀ v : ℕ × ℕ × ℕ, v.1 < paddedExtent w pw → v.2.1 < paddedExtent h ph →
    v.2.2 < paddedExtent d pd →
    1 ≤ visitCnt sxy sz pw ph pd (paddedExtent w pw) (paddedExtent h ph)
      (paddedExtent d pd) v := by
  refine ⟨length_patchOffsets _ _ _ _ _ _ _ _,
    stepCount_eq_ceil _ _ _ hz0 (patch_le_paddedExtent w pw),
    stepCount_eq_ceil _ _ _ hx0 (patch_le_paddedExtent h ph),
    stepCount_eq_ceil _ _ _ hx0 (patch_le_paddedExtent d pd),
    ?_, ?_, ?_, ?_, ?_⟩
  · intro o ho
    rw [mem_patchOffsets] at ho
    obtain ⟨x, _, y, _, z, _, rfl⟩ := ho
    exact ⟨axOff_le _ _ _, axOff_le _ _ _, axOff_le _ _ _⟩
  · unfold stepCount
    simpa using axOff_last sz (paddedExtent w pw - pw) hz0
  · unfold stepCount
    simpa using axOff_last sxy (paddedExtent h ph - ph) hx0
  · unfold stepCount
    simpa using axOff_last sxy (paddedExtent d pd - pd) hx0
  · intro v h1 h2 h3
    exact visit_everywhere _ _ _ _ _ _ _ _ hz0 hzp hx0 hxh hxd
      (patch_le_paddedExtent w pw) (patch_le_paddedExtent h ph)
      (patch_le_paddedExtent d pd) v h1 h2 h3

/-- Claim C1, witness: the amended theorem applied at volume (3,1,1), patch
(2,1,1), stride_z = 2, stride_xy = 1, voxel (2,0,0). -/
theorem patch_tiling_covers_inst :
  1 ≤ visitCnt 1 2 2 1 1 (paddedExtent 3 2) (paddedExtent 1 1)
    (paddedExtent 1 1) (2, 0, 0) :=
  (patch_tiling_covers 3 1 1 2 1 1 1 2 (by decide) (by decide) (by decide)
    (by decide) (by decide)).2.2.2.2.2.2.2.2 (2, 0, 0) (by decide) (by decide)
    (by decide)

/-- Claim C2, counterexample.  With volume (3,1,1), patch (1,1,1),
stride_z = 2, stride_xy = 1, one class and any model, the voxel (1,0,0) has
VisitCount 0, yet the normalization step does not abort: `test_single_case`
has no `CoverageError` (no such exception exists anywhere in the code), the
division at line 137 is performed unconditionally, and inference still
produces a label map (here the value 0 at the unvisited voxel, which is what
`np.argmax` returns on the all-NaN column). -/
theorem coverage_no_abort :
  visitCnt 1 2 1 1 1 (paddedExtent 3 1) (paddedExtent 1 1) (paddedExtent 1 1)
    (1, 0, 0) = 0 ∧
  outputLabel 1 (fun _ _ _ => 1) (fun _ => 0) 1 2 1 1 1 3 1 1 (1, 0, 0) = 0 := by
  decide

/-- Claim C2 (amended): if a voxel has VisitCount == 0, no exception is
raised: the accumulated score at that voxel is 0 on every class, the
normalization divides anyway, and the voxel's normalized score is the
NaN produced by the float division 0/0 (modelled `none`); inference
proceeds and returns a result. -/
theorem uncovered_voxel_nan (net : Net) (pimg : Img)
  (sxy sz pw ph pd ww hh dd c : ℕ) (v : ℕ × ℕ × ℕ)
  (h : visitCnt sxy sz pw ph pd ww hh dd v = 0) :
  scoreAcc net pimg sxy sz pw ph pd ww hh dd c v = 0 ∧
  normVoxel (scoreAcc net pimg sxy sz pw ph pd ww hh dd c v)
    (visitCnt sxy sz pw ph pd ww hh dd v) = none := by
  have hall : ∀ o ∈ patchOffsets sxy sz pw ph pd ww hh dd,
      ¬ (covers pw ph pd o v = true) := List.countP_eq_zero.mp h
  have hs : scoreAcc net pimg sxy sz pw ph pd ww hh dd c v = 0 := by
    unfold scoreAcc
    apply List.sum_eq_zero
    intro x hx
    rw [List.mem_map] at hx
    obtain ⟨o, ho, rfl⟩ := hx
    simp [hall o ho]
  refine ⟨hs, ?_⟩
  rw [hs, h]
  simp [normVoxel]

/-- Claim C2, witness for the amended theorem at a concrete uncovered
voxel. -/
theorem uncovered_voxel_nan_inst :
  visitCnt 1 2 1 1 1 3 1 1 (1, 0, 0) = 0 ∧
  (scoreAcc (fun _ _ _ => 1) (fun _ => 0) 1 2 1 1 1 3 1 1 0 (1, 0, 0) = 0 ∧
   normVoxel (scoreAcc (fun _ _ _ => 1) (fun _ => 0) 1 2 1 1 1 3 1 1 0 (1, 0, 0))
     (visitCnt 1 2 1 1 1 3 1 1 (1, 0, 0)) = none) :=
  ⟨by decide, uncovered_voxel_nan (fun _ _ _ => 1) (fun _ => 0) 1 2 1 1 1 3 1 1
    0 (1, 0, 0) (by decide)⟩

/-- The argmax fold keeps the best index below the number of scanned
elements. -/
lemma argmaxGo_lt (l : List (Option ℚ)) :
  ∀ (i bi : ℕ) (bv : Option ℚ), bi < i → argmaxGo l i bi bv < i + l.length := by
  induction l with
  | nil => intro i bi bv h; simpa [argmaxGo] using h
  | cons a rest ih =>
    intro i bi bv h
    unfold argmaxGo
    by_cases hgt : npGT a bv = true
    · rw [if_pos hgt]
      have := ih (i + 1) i a (by omega)
      simp only [List.length_cons]
      omega
    · rw [if_neg hgt]
      have := ih (i + 1) bi bv (by omega)
      simp only [List.length_cons]
      omega

/-- The index returned by `np.argmax` is inside the array. -/
lemma argmaxIdx_lt (l : List (Option ℚ)) (h : l ≠ []) : argmaxIdx l < l.length := by
  cases l with
  | nil => exact absurd rfl h
  | cons a rest =>
    have := argmaxGo_lt rest 1 0 a (by omega)
    simp only [argmaxIdx, List.length_cons]
    omega

/-- The one-axis crop of line 140 restores the original extent. -/
lemma cropExt_eq (e p : ℕ) : cropExt e p = e := by
  unfold cropExt paddedExtent padLeft padAmt
  omega

/-- Claim C8: for every input volume (including volumes smaller than the
patch on any axis), the symmetric zero-padding followed by the final crop
restores exactly the original shape, and every voxel of the returned label
map is a class id below `num_classes`. -/
theorem roundtrip_shape_and_range (w h d pw ph pd nc : ℕ) (net : Net)
  (img : Img) (sxy sz : ℕ) (v : ℕ × ℕ × ℕ) (hnc : 0 < nc) :
  outputShape w h d pw ph pd = (w, h, d) ∧
  outputLabel nc net img sxy sz pw ph pd w h d v < nc := by
  constructor
  · unfold outputShape
    by_cases hp : addPad w h d pw ph pd = true
    · rw [if_pos hp, cropExt_eq, cropExt_eq, cropExt_eq]
    · rw [if_neg hp]
      unfold addPad at hp
      simp only [Bool.or_eq_true, decide_eq_true_eq, not_or, not_lt] at hp
      unfold paddedExtent padAmt
      refine Prod.ext ?_ (Prod.ext ?_ ?_) <;> simp <;> omega
  · unfold outputLabel labelPadded
    have hne : (List.range nc).map (fun c =>
        normVoxel (scoreAcc net (paddedImage img w h d pw ph pd) sxy sz pw ph pd
          (paddedExtent w pw) (paddedExtent h ph) (paddedExtent d pd) c
          (if addPad w h d pw ph pd then
            (v.1 + padLeft w pw, v.2.1 + padLeft h ph, v.2.2 + padLeft d pd)
           else v))
          (visitCnt sxy sz pw ph pd (paddedExtent w pw) (paddedExtent h ph)
            (paddedExtent d pd)
            (if addPad w h d pw ph pd then
              (v.1 + padLeft w pw, v.2.1 + padLeft h ph, v.2.2 + padLeft d pd)
             else v))) ≠ [] := by
      simp only [ne_eq, List.map_eq_nil_iff, List.range_eq_nil]
      omega
    have := argmaxIdx_lt _ hne
    simpa using this

/-- Claim C8, witness: volume (1,1,1) smaller than the patch (2,2,2) on every
axis, two classes, a concrete model. -/
theorem roundtrip_shape_and_range_inst :
  0 < 2 ∧
  (outputShape 1 1 1 2 2 2 = (1, 1, 1) ∧
   outputLabel 2 (fun _ c _ => (c : ℚ)) (fun _ => 1) 1 1 2 2 2 1 1 1
     (0, 0, 0) < 2) :=
  ⟨by decide, roundtrip_shape_and_range 1 1 1 2 2 2 2 (fun _ c _ => (c : ℚ))
    (fun _ => 1) 1 1 (0, 0, 0) (by decide)⟩

/-- Claim C10: in the inference tiling, offsets along the first spatial axis
are stepped with `stride_z` and offsets along the second and third axes with
`stride_xy`: every emitted offset triple has its first component of the form
`min(stride_z * k, ww - pw)` for some step index `k` below the axis-0 count,
its second of the form `min(stride_xy * k, hh - ph)`, its third of the form
`min(stride_xy * k, dd - pd)`, and each such per-axis value is realized by
some emitted triple (so `stride_xy` is never applied to the first axis and
`stride_z` never to the second or third). -/
theorem stride_axis_assignment (sxy sz pw ph pd ww hh dd : ℕ) :
  (∀ o ∈ patchOffsets sxy sz pw ph pd ww hh dd,
    (∃ x, x < stepCount ww pw sz ∧ o.1 = axOff sz (ww - pw) x) ∧
    (∃ y, y < stepCount hh ph sxy ∧ o.2.1 = axOff sxy (hh - ph) y) ∧
    (∃ z, z < stepCount dd pd sxy ∧ o.2.2 = axOff sxy (dd - pd) z)) ∧
  (∀ x, x < stepCount ww pw sz →
    ∃ o ∈ patchOffsets sxy sz pw ph pd ww hh dd, o.1 = axOff sz (ww - pw) x) ∧
  (∀ y, y < stepCount hh ph sxy →
    ∃ o ∈ patchOffsets sxy sz pw ph pd ww hh dd, o.2.1 = axOff sxy (hh - ph) y) ∧
  (∀ z, z < stepCount dd pd sxy →
    ∃ o ∈ patchOffsets sxy sz pw ph pd ww hh dd, o.2.2 = axOff sxy (dd - pd) z) := by
  have hpos : ∀ pe p s : ℕ, 0 < stepCount pe p s := fun pe p s =>
    Nat.succ_pos ((pe - p + s - 1) / s)
  refine ⟨?_, ?_, ?_, ?_⟩
  · intro o ho
    rw [mem_patchOffsets] at ho
    obtain ⟨x, hx, y, hy, z, hz, rfl⟩ := ho
    exact ⟨⟨x, hx, rfl⟩, ⟨y, hy, rfl⟩, ⟨z, hz, rfl⟩⟩
  · intro x hx
    refine ⟨(axOff sz (ww - pw) x, axOff sxy (hh - ph) 0, axOff sxy (dd - pd) 0),
      ?_, rfl⟩
    rw [mem_patchOffsets]
    exact ⟨x, hx, 0, hpos _ _ _, 0, hpos _ _ _, rfl⟩
  · intro y hy
    refine ⟨(axOff sz (ww - pw) 0, axOff sxy (hh - ph) y, axOff sxy (dd - pd) 0),
      ?_, rfl⟩
    rw [mem_patchOffsets]
    exact ⟨0, hpos _ _ _, y, hy, 0, hpos _ _ _, rfl⟩
  · intro z hz
    refine ⟨(axOff sz (ww - pw) 0, axOff sxy (hh - ph) 0, axOff sxy (dd - pd) z),
      ?_, rfl⟩
    rw [mem_patchOffsets]
    exact ⟨0, hpos _ _ _, 0, hpos _ _ _, z, hz, rfl⟩

/-- Claim C10, witness: the characterization applied to the emitted offset
(2,0,0) of the tiling with stride_xy = 1, stride_z = 2, patch (1,1,1), padded
volume (3,1,1): its first component steps with stride_z. -/
theorem stride_axis_assignment_inst :
  (2, 0, 0) ∈ patchOffsets 1 2 1 1 1 3 1 1 ∧
  ((∃ x, x < stepCount 3 1 2 ∧ (2, 0, 0).1 = axOff 2 (3 - 1) x) ∧
   (∃ y, y < stepCount 1 1 1 ∧ ((2, 0, 0) : ℕ × ℕ × ℕ).2.1 = axOff 1 (1 - 1) y) ∧
   (∃ z, z < stepCount 1 1 1 ∧ ((2, 0, 0) : ℕ × ℕ × ℕ).2.2 = axOff 1 (1 - 1) z)) :=
  ⟨by decide, (stride_axis_assignment 1 2 1 1 1 3 1 1).1 (2, 0, 0) (by decide)⟩

/-! ### Mean-teacher training loop (train_semi_3Dmt_dist.py, main) -/

/-- The confidence-and-ignore gate of line 185:
`(conf_u_w >= cfg['conf_thresh']) & (ignore_mask != 255)` at one voxel, the
voxel being the pair (teacher confidence, ignore-mask value). -/
def qualify (thr : ℚ) (q : ℚ × ℕ) : Bool :=
  decide (thr ≤ q.1) && decide (q.2 ≠ 255)

/-- Per-voxel masked losses over a flattened batch (line 185): the elementwise
cross-entropy multiplied by the 0/1 cast of the gate.  A batch voxel is a
triple (cross-entropy value, teacher confidence, ignore-mask value). -/
def maskedCE (thr : ℚ) (ce conf : List ℚ) (ign : List ℕ) : List ℚ :=
  (ce.zip (conf.zip ign)).map (fun q => q.1 * (if qualify thr q.2 then 1 else 0))

/-- Count of non-ignored voxels (line 186: `(ignore_mask != 255).sum()`). -/
def nonIgnored (ign : List ℕ) : ℕ := (ign.filter (fun a => decide (a ≠ 255))).length

/-- The unsupervised loss `loss_u_s` of lines 184-186: masked sum divided by
the count of non-ignored voxels.  When that count is 0 the float code
computes `0/0 = NaN`, modelled by `none`; no exception is raised. -/
def unsupLoss (thr : ℚ) (ce conf : List ℚ) (ign : List ℕ) : Option ℚ :=
  if nonIgnored ign = 0 then none
  else some ((maskedCE thr ce conf ign).sum / nonIgnored ign)

/-- Embedding of `sigmoid_rampup`, lines 43-50: `np.clip(current, 0.0, rampup_length)`
is `min (max current 0) rampup_length`, then `exp(-5.0 * phase * phase)`. -/
noncomputable def sigmoidRampup (current rampupLength : ℝ) : ℝ :=
  if rampupLength = 0 then 1
  else
    Real.exp (-5 * ((1 - min (max current 0) rampupLength / rampupLength) *
      (1 - min (max current 0) rampupLength / rampupLength)))

/-- Embedding of `get_current_consistency_weight`, lines 57-59:
`args.consistency * sigmoid_rampup(epoch, args.consistency_rampup)`. -/
noncomputable def consistencyWeight (consistency epoch rampup : ℝ) : ℝ :=
  consistency * sigmoidRampup epoch rampup

/-- The loss that is backpropagated, line 188: `loss = (loss_x + loss_u_s) / 2.0`.
The third argument mirrors the scalar `consistency_weight` computed on
line 187, which is in scope at line 188 but does not occur in the loss
expression. -/
noncomputable def backpropLoss (lossX lossUS consistencyW : ℝ) : ℝ := (lossX + lossUS) / 2

/-- The learning-rate schedule of line 203:
`lr = cfg['lr'] * (1 - iters / total_iters) ** 0.9` (a real power). -/
noncomputable def lrSched (baseLr : ℝ) (totalIters iters : ℕ) : ℝ :=
  baseLr * (1 - (iters : ℝ) / (totalIters : ℝ)) ^ (0.9 : ℝ)

/-- The EMA coefficient of line 205: `min(1 - 1 / (iters + 1), 0.996)`. -/
def emaCoeff (iters : ℕ) : ℚ := min (1 - 1 / ((iters : ℚ) + 1)) 0.996

/-- One EMA update of a single teacher value (lines 208 and 210):
`param_ema * ema_ratio + param.detach() * (1 - ema_ratio)`. -/
def emaStep (r p t : ℚ) : ℚ := t * r + p * (1 - r)

/-- The EMA update of lines 207-210, applied over the zipped lists of
student values `ps` and teacher values `ts` (the same loop is run once over
the parameters and once over the buffers). -/
def emaUpdate (r : ℚ) (ps ts : List ℚ) : List ℚ :=
  (ps.zip ts).map (fun q => emaStep r q.1 q.2)

/-! ### Checkpoint state (train_semi_3Dmt_dist.py, lines 129-147) -/

/-- The payload saved as `latest.pth` (lines 263-273): both model states, the
optimizer state, the epoch, the best-metric bookkeeping and the iteration
counter.  Model and optimizer states are opaque blobs of types `M` and `O`. -/
structure Ckpt (M O : Type) where
  model : M
  modelEma : M
  optim : O
  epoch : ℤ
  previousBest1 : ℚ
  previousBest2 : ℚ
  bestEpoch : ℤ
  bestEpochEma : ℤ
  iterNum : ℕ

/-- The in-memory training state right before the epoch loop of line 147. -/
structure TrainingState (M O : Type) where
  model : M
  modelEma : M
  optim : O
  epoch : ℤ
  preBestDice1 : ℚ
  preBestDice2 : ℚ
  bestEpoch1 : ℤ
  bestEpoch2 : ℤ
  iterNum : ℕ

/-- Lines 129-145: the defaults of lines 129-132 (`pre_best = 0.78`,
`epoch = -1`, `iter_num = 0`, the freshly initialized models and optimizer),
overwritten field by field from the checkpoint when `latest.pth` exists
(`none` models the missing file, for which `os.path.exists` is false and
nothing is raised). -/
def restoreState (M O : Type) (m me : M) (o : O) :
  Option (Ckpt M O) → TrainingState M O
  | none => ⟨m, me, o, -1, 0.78, 0.78, 0, 0, 0⟩
  | some c => ⟨c.model, c.modelEma, c.optim, c.epoch, c.previousBest1,
      c.previousBest2, c.bestEpoch, c.bestEpochEma, c.iterNum⟩

/-- The first epoch the loop of line 147 runs:
`for epoch in range(epoch + 1, cfg['epochs'])`. -/
def startEpoch (M O : Type) (st : TrainingState M O) : ℤ := st.epoch + 1

/-- Indicator-multiplication sums equal sums over the qualifying sublist. -/
lemma maskedCE_sum (thr : ℚ) (l : List (ℚ × (ℚ × ℕ))) :
  (l.map (fun q => q.1 * (if qualify thr q.2 then (1 : ℚ) else 0))).sum =
  ((l.filter (fun q => qualify thr q.2)).map (fun q => q.1)).sum := by
  induction l with
  | nil => simp
  | cons a rest ih =>
    by_cases hq : qualify thr a.2 = true
    · rw [List.map_cons, List.sum_cons, if_pos hq, mul_one, List.filter_cons,
        if_pos hq, List.map_cons, List.sum_cons, ih]
    · rw [List.map_cons, List.sum_cons, if_neg hq, mul_zero, zero_add,
        List.filter_cons, if_neg hq, ih]

/-- Claim C3: the unsupervised loss of lines 183-186 is the per-voxel
cross-entropy against the teacher pseudo-label, kept only where the teacher
confidence reaches the threshold and the ignore-mask is not 255, and divided
by the count of non-ignored voxels (not the count of qualifying voxels).
This verifies the arithmetic of lines 184-186; note the claim still fails on
the program as a whole because line 181 reads the undefined name `img_u_s1`
(the unpacked variable of line 171 is `img_u_s`), so the student forward pass
producing `pred_u_s` raises `NameError` before these lines run. -/
theorem unsup_loss_masked_formula (thr : ℚ) (ce conf : List ℚ) (ign : List ℕ)
  (hd : 0 < nonIgnored ign) :
  unsupLoss thr ce conf ign =
    some ((((ce.zip (conf.zip ign)).filter (fun q => qualify thr q.2)).map
      (fun q => q.1)).sum / nonIgnored ign) := by
  unfold unsupLoss
  rw [if_neg (by omega)]
  unfold maskedCE
  rw [maskedCE_sum]

/-- Claim C3, witness: a two-voxel batch with one qualifying and one ignored
voxel. -/
theorem unsup_loss_masked_formula_inst :
  0 < nonIgnored [0, 255] ∧
  unsupLoss 1 [2, 3] [1, 0] [0, 255] =
    some (((([(2 : ℚ), 3].zip ([(1 : ℚ), 0].zip [0, 255])).filter
      (fun q => qualify 1 q.2)).map (fun q => q.1)).sum /
        (nonIgnored [0, 255] : ℚ)) :=
  ⟨by decide, unsup_loss_masked_formula 1 [2, 3] [1, 0] [0, 255] (by decide)⟩

/-- Claim C4, counterexample: for a batch whose ignore-mask is 255 at every
voxel, the denominator of line 186 is 0 and the masked sum is 0, so the code
computes `0/0 = NaN` (modelled `none`): the unsupervised term is NaN, not
zero. -/
theorem all_ignored_nan :
  nonIgnored [255, 255] = 0 ∧
  (maskedCE 1 [2, 3] [5, 5] [255, 255]).sum = 0 ∧
  unsupLoss 1 [2, 3] [5, 5] [255, 255] = none ∧
  unsupLoss 1 [2, 3] [5, 5] [255, 255] ≠ some 0 := by
  have h1 : nonIgnored [255, 255] = 0 := by decide
  have h2 : (maskedCE 1 [2, 3] [5, 5] [255, 255]).sum = 0 := by
    norm_num [maskedCE, qualify]
  have h3 : unsupLoss 1 [2, 3] [5, 5] [255, 255] = none := by
    unfold unsupLoss
    rw [if_pos h1]
  refine ⟨h1, h2, h3, ?_⟩
  rw [h3]
  simp

/-- Claim C4 (amended): a wholly ignored batch raises no division error (the
float division returns a value and the computation is total), but the
unsupervised term is `0/0 = NaN` (modelled `none`), which then propagates
into the combined loss, rather than contributing exactly zero. -/
theorem all_ignored_loss_none (thr : ℚ) (ce conf : List ℚ) (ign : List ℕ)
  (hall : ∀ a ∈ ign, a = 255) :
  (maskedCE thr ce conf ign).sum = 0 ∧ unsupLoss thr ce conf ign = none := by
  have hni : nonIgnored ign = 0 := by
    unfold nonIgnored
    rw [List.length_eq_zero, List.filter_eq_nil_iff]
    intro a ha
    simp [hall a ha]
  have hsum : (maskedCE thr ce conf ign).sum = 0 := by
    unfold maskedCE
    apply List.sum_eq_zero
    intro x hx
    rw [List.mem_map] at hx
    obtain ⟨q, hq, rfl⟩ := hx
    have h2 : q.2.2 ∈ ign := (List.of_mem_zip (List.of_mem_zip hq).2).2
    have hfalse : qualify thr q.2 = false := by
      unfold qualify
      simp [hall _ h2]
    simp [hfalse]
  refine ⟨hsum, ?_⟩
  unfold unsupLoss
  rw [if_pos hni]

/-- Claim C4, witness for the amended theorem on a concrete all-ignored
batch. -/
theorem all_ignored_loss_none_inst :
  (∀ a ∈ ([255] : List ℕ), a = 255) ∧
  ((maskedCE 1 [2] [5] [255]).sum = 0 ∧ unsupLoss 1 [2] [5] [255] = none) :=
  ⟨by decide, all_ignored_loss_none 1 [2] [5] [255] (by decide)⟩

/-- Claim C5: the backpropagated loss of line 188 is
`(supervised + unsupervised) / 2` and is independent of the consistency
weight that line 187 computes; that weight follows the exponential ramp
`max_weight * exp(-5 * (1 - t/T)^2)` for `t < T` and is `max_weight` for
`t ≥ T` (including the `T = 0` branch of `sigmoid_rampup`). -/
theorem combined_loss_and_rampup (lx lu cw cw2 maxw t T : ℝ) (ht : 0 ≤ t) :
  backpropLoss lx lu cw = (lx + lu) / 2 ∧
  backpropLoss lx lu cw = backpropLoss lx lu cw2 ∧
  (t < T → consistencyWeight maxw t T =
    maxw * Real.exp (-5 * (1 - t / T) ^ 2)) ∧
  (T ≤ t → consistencyWeight maxw t T = maxw) := by
  refine ⟨rfl, rfl, ?_, ?_⟩
  · intro hlt
    have hT : T ≠ 0 := by
      intro hT0
      rw [hT0] at hlt
      linarith
    unfold consistencyWeight sigmoidRampup
    rw [if_neg hT, max_eq_left ht, min_eq_left (le_of_lt hlt), pow_two]
  · intro hge
    unfold consistencyWeight sigmoidRampup
    by_cases hT : T = 0
    · rw [if_pos hT]
      ring
    · rw [if_neg hT, max_eq_left ht, min_eq_right hge, div_self hT]
      norm_num [Real.exp_zero]

/-- Claim C5, witness at `t = 1 < T = 2` and at the `T ≤ t` branch
hypotheses. -/
theorem combined_loss_and_rampup_inst :
  (0 : ℝ) ≤ 1 ∧
  (backpropLoss 3 5 7 = (3 + 5) / 2 ∧
   backpropLoss 3 5 7 = backpropLoss 3 5 9 ∧
   ((1 : ℝ) < 2 → consistencyWeight 4 1 2 =
     4 * Real.exp (-5 * (1 - 1 / 2) ^ 2)) ∧
   ((2 : ℝ) ≤ 1 → consistencyWeight 4 1 2 = 4)) :=
  ⟨by norm_num, combined_loss_and_rampup 3 5 7 9 4 1 2 (by norm_num)⟩

/-- The EMA update rewrites every position of the zipped lists. -/
lemma emaUpdate_get (r : ℚ) (ps ts : List ℚ) (i : ℕ) (p t : ℚ)
  (hp : ps[i]? = some p) (ht : ts[i]? = some t) :
  (emaUpdate r ps ts)[i]? = some (emaStep r p t) := by
  induction ps generalizing ts i with
  | nil => simp at hp
  | cons a as ih =>
    cases ts with
    | nil => simp at ht
    | cons b bs =>
      cases i with
      | zero =>
        simp only [List.getElem?_cons_zero, Option.some.injEq] at hp ht
        subst hp
        subst ht
        simp [emaUpdate]
      | succ n =>
        simp only [List.getElem?_cons_succ] at hp ht
        have := ih bs n hp ht
        simpa [emaUpdate] using this

/-- Claim C6: after each iteration every teacher value (parameters and
buffers are updated by the same loop) becomes
`teacher * ema_ratio + student * (1 - ema_ratio)` with
`ema_ratio = min(1 - 1/(iters+1), 0.996)`; with ratio 1/2, student 2 and
teacher 0 the result is 1, and equal student/teacher values are left
unchanged. -/
theorem ema_update_rule (iters : ℕ) (ps ts : List ℚ) (i : ℕ) (p t : ℚ)
  (hp : ps[i]? = some p) (ht : ts[i]? = some t) :
  (emaUpdate (emaCoeff iters) ps ts)[i]? =
    some (t * emaCoeff iters + p * (1 - emaCoeff iters)) ∧
  emaCoeff iters = min (1 - 1 / ((iters : ℚ) + 1)) 0.996 ∧
  emaStep (1 / 2) 2 0 = 1 ∧
  (∀ r v : ℚ, emaStep r v v = v) := by
  refine ⟨emaUpdate_get (emaCoeff iters) ps ts i p t hp ht, rfl,
    by norm_num [emaStep], ?_⟩
  intro r v
  unfold emaStep
  ring

/-- Claim C6, witness: one student parameter with value 2, one teacher
parameter with value 0, at iteration 1 (where the EMA ratio is 1/2, yielding
the updated teacher value 1). -/
theorem ema_update_rule_inst :
  (([2] : List ℚ)[0]? = some 2) ∧ (([0] : List ℚ)[0]? = some 0) ∧
  ((emaUpdate (emaCoeff 1) [2] [0])[0]? =
    some (0 * emaCoeff 1 + 2 * (1 - emaCoeff 1)) ∧
   emaCoeff 1 = min (1 - 1 / ((1 : ℚ) + 1)) 0.996 ∧
   emaStep (1 / 2) 2 0 = 1 ∧
   (∀ r v : ℚ, emaStep r v v = v)) :=
  ⟨by decide, by decide, ema_update_rule 1 [2] [0] 0 2 0 (by decide) (by decide)⟩

/-- Claim C7: the learning rate set by direct mutation at lines 203-204
follows `base_lr * (1 - iters/total_iters) ^ 0.9`; it equals `base_lr` at
iteration 0 and 0 at iteration `total_iters`. -/
theorem lr_poly_decay (baseLr : ℝ) (T : ℕ) (hT : 0 < T) :
  lrSched baseLr T 0 = baseLr ∧ lrSched baseLr T T = 0 ∧
  (∀ i : ℕ, lrSched baseLr T i = baseLr * (1 - (i : ℝ) / (T : ℝ)) ^ (0.9 : ℝ)) := by
  refine ⟨?_, ?_, fun i => rfl⟩
  · unfold lrSched
    simp [Real.one_rpow]
  · unfold lrSched
    have hT0 : (T : ℝ) ≠ 0 := Nat.cast_ne_zero.mpr hT.ne'
    rw [div_self hT0, show (1 : ℝ) - 1 = 0 by norm_num,
      Real.zero_rpow (by norm_num), mul_zero]

/-- Claim C7, witness at base learning rate 2 and 10 total iterations. -/
theorem lr_poly_decay_inst :
  0 < 10 ∧
  (lrSched 2 10 0 = 2 ∧ lrSched 2 10 10 = 0 ∧
   (∀ i : ℕ, lrSched 2 10 i = 2 * (1 - (i : ℝ) / (10 : ℝ)) ^ (0.9 : ℝ))) :=
  ⟨by decide, lr_poly_decay 2 10 (by decide)⟩

/-- Claim C9: when a `latest` checkpoint exists, every field (both model
states, the optimizer state, the epoch, the best-metric bookkeeping and the
iteration counter) is restored exactly as saved and the epoch loop resumes at
`saved_epoch + 1`; when no checkpoint exists, the fresh defaults of
lines 129-132 are used and the loop starts at epoch 0.
This verifies the restore logic of lines 129-147 in isolation; note the claim
still fails on the program as a whole because line 89 reads
`args.teacher_ckpt`, an argument the parser of lines 28-41 never defines, so
every process start raises `AttributeError` before the restore logic runs:
training never starts without raising, whether or not `latest.pth` exists. -/
theorem checkpoint_resume (M O : Type) (m me : M) (o : O) (c : Ckpt M O) :
  (restoreState M O m me o (some c)).model = c.model ∧
  (restoreState M O m me o (some c)).modelEma = c.modelEma ∧
  (restoreState M O m me o (some c)).optim = c.optim ∧
  (restoreState M O m me o (some c)).epoch = c.epoch ∧
  (restoreState M O m me o (some c)).preBestDice1 = c.previousBest1 ∧
  (restoreState M O m me o (some c)).preBestDice2 = c.previousBest2 ∧
  (restoreState M O m me o (some c)).bestEpoch1 = c.bestEpoch ∧
  (restoreState M O m me o (some c)).bestEpoch2 = c.bestEpochEma ∧
  (restoreState M O m me o (some c)).iterNum = c.iterNum ∧
  startEpoch M O (restoreState M O m me o (some c)) = c.epoch + 1 ∧
  restoreState M O m me o none = ⟨m, me, o, -1, 0.78, 0.78, 0, 0, 0⟩ ∧
  startEpoch M O (restoreState M O m me o none) = 0 := by
  refine ⟨rfl, rfl, rfl, rfl, rfl, rfl, rfl, rfl, rfl, rfl, rfl, ?_⟩
  unfold startEpoch restoreState
  norm_num

end SelfResearch
